import Mathlib

/-!
Shallow embedding of the APAC expansion decision engine
(`src/models/scoring.py`, `src/models/forecast.py`, `src/models/monte_carlo.py`)
together with proofs of the specified properties.

Numbers that are Python/numpy floats are modelled as exact rationals (`ℚ`);
Python ints are modelled as `ℤ`/`ℕ`.
-/

/-! ### Python / numpy primitives -/

/-- Python `int(q)` on a float: truncation toward zero. -/
def pyInt (q : ℚ) : ℤ := if 0 ≤ q then ⌊q⌋ else ⌈q⌉

/-- Python float floor division `a // b`. -/
def pyFloorDiv (a b : ℚ) : ℚ := (⌊a / b⌋ : ℤ)

/-- `np.clip(x, lo, hi)`, i.e. `min(max(x, lo), hi)`. -/
def np_clip (x lo hi : ℚ) : ℚ := min (max x lo) hi

/-- `np.linspace(a, b, n)` with endpoint included (numpy default). -/
def np_linspace (a b : ℚ) (n : ℕ) : List ℚ :=
  if n ≤ 1 then (List.range n).map (fun _ => a)
  else (List.range n).map (fun i => a + (b - a) * i / (n - 1))

/-- The first occurrence of each value, in order of first appearance
(`pandas.Series.unique`). -/
def uniqueFirst (l : List ℕ) : List ℕ :=
  l.foldl (fun acc a => if a ∈ acc then acc else acc ++ [a]) []

/-- `np.mean` over a list of rationals. -/
def npMean (xs : List ℚ) : ℚ := xs.sum / xs.length

/-- `np.percentile(xs, q)` with numpy's default linear interpolation
between order statistics.  `np.median xs = npPercentile xs 50`. -/
def npPercentile (xs : List ℚ) (q : ℚ) : ℚ :=
  let sorted := xs.mergeSort (fun a b => decide (a ≤ b))
  let h : ℚ := ((sorted.length : ℚ) - 1) * q / 100
  let i : ℕ := ⌊h⌋.toNat
  let lo := sorted.getD i 0
  let hi := sorted.getD (i + 1) lo
  lo + (h - (⌊h⌋ : ℚ)) * (hi - lo)

/-- Population standard deviation `np.std` (ddof = 0); the square root is
irrational in general, so this single statistic lives in `ℝ`. -/
noncomputable def npStd (xs : List ℚ) : ℝ :=
  Real.sqrt (((xs.map (fun x => (x - npMean xs) ^ 2)).sum / xs.length : ℚ) : ℝ)

/-- Sample standard deviation (pandas `std`, ddof = 1). -/
noncomputable def sampleStd (xs : List ℚ) : ℝ :=
  Real.sqrt (((xs.map (fun x => (x - npMean xs) ^ 2)).sum / ((xs.length : ℚ) - 1) : ℚ) : ℝ)

/-- Round half to even (numpy/pandas rounding) to an integer. -/
def roundHalfEven (q : ℚ) : ℤ :=
  if q - (⌊q⌋ : ℚ) < 1 / 2 then ⌊q⌋
  else if (1 : ℚ) / 2 < q - (⌊q⌋ : ℚ) then ⌊q⌋ + 1
  else if Even ⌊q⌋ then ⌊q⌋ else ⌊q⌋ + 1

/-- numpy `round(x, 2)` on rationals. -/
def npRound2 (q : ℚ) : ℚ := (roundHalfEven (q * 100) : ℚ) / 100

/-- Round half to even on reals. -/
noncomputable def roundHalfEvenR (x : ℝ) : ℤ :=
  if x - (⌊x⌋ : ℝ) < 1 / 2 then ⌊x⌋
  else if (1 : ℝ) / 2 < x - (⌊x⌋ : ℝ) then ⌊x⌋ + 1
  else if Even ⌊x⌋ then ⌊x⌋ else ⌊x⌋ + 1

/-- numpy `round(x, 2)` on reals. -/
noncomputable def npRound2R (x : ℝ) : ℝ := (roundHalfEvenR (x * 100) : ℝ) / 100

/-! ### Scoring (`src/models/scoring.py`, class `MarketScorer`) -/

/-- A weight dictionary `Dict[str, float]`: an association list in insertion
order (Python dicts preserve insertion order and have distinct keys). -/
abbrev Weights := List (String × ℚ)

/-- `sum(self.weights.values())`. -/
def sumWeights (w : Weights) : ℚ := (w.map Prod.snd).sum

/-- The sum of the weights of all criteria other than `name`
(`sum(v for k, v in self.weights.items() if k != weight_name)`). -/
def othersSum (w : Weights) (name : String) : ℚ :=
  ((w.filter (fun p => p.1 ≠ name)).map Prod.snd).sum

/-- `MarketScorer._validate_weights` prints a warning exactly when
`abs(total - 1.0) > 0.01`; it does not modify the weights. -/
def emitsWeightWarning (w : Weights) : Prop := |sumWeights w - 1| > 1 / 100

instance (w : Weights) : Decidable (emitsWeightWarning w) := by
  unfold emitsWeightWarning; infer_instance

/-- The fixed `feature_mapping` dictionary of `score_markets`. -/
def featureMapping (name : String) : Option String :=
  if name = "market_size" then some "market_size_score_standardized"
  else if name = "purchasing_power" then some "purchasing_power_score_standardized"
  else if name = "digital_readiness" then some "digital_readiness_score_standardized"
  else if name = "governance_risk" then some "governance_risk_score_standardized"
  else if name = "corruption_risk" then some "corruption_risk_score_standardized"
  else none

/-- One row of the standardized feature table: a country code plus its
standardized feature columns. -/
structure Market where
  country_code : String
  features : List (String × ℚ)

/-- The contribution of one `(weight_name, weight_value)` pair to a market's
`total_score`: `weight_value * df[feature_col]` when the mapping resolves and
the column exists, else `0` (the code prints a warning and adds nothing). -/
def featureContribution (m : Market) (p : String × ℚ) : ℚ :=
  match featureMapping p.1 with
  | none => 0
  | some col =>
    match m.features.lookup col with
    | none => 0
    | some v => p.2 * v

/-- `df["total_score"]` for one row: the weighted sum accumulated over
`self.weights.items()`. -/
def totalScore (w : Weights) (m : Market) : ℚ :=
  (w.map (featureContribution m)).sum

/-- The per-criterion `score_{weight_name}` columns added for visualization. -/
def componentScores (w : Weights) (m : Market) : List (String × ℚ) :=
  (w.filter (fun p =>
      (featureMapping p.1).any (fun col => (m.features.lookup col).isSome))).map
    (fun p => (p.1, featureContribution m p))

/-- One output row of `MarketScorer.score_markets`. -/
structure ScoredMarket where
  country_code : String
  total_score : ℚ
  components : List (String × ℚ)
  rank : ℕ

/-- `MarketScorer.score_markets`: weighted total score per row, dense
("min") rank on descending `total_score`
(`df["total_score"].rank(ascending=False, method="min")`), then
`df.sort_values("rank")`. -/
def scoredPairs (w : Weights) (df : List Market) : List (Market × ℚ) :=
  df.map (fun m => (m, totalScore w m))

/-- The rows with their `total_score` and dense ("min") descending rank,
in input order (before `sort_values`). -/
def rankedRows (w : Weights) (df : List Market) : List ScoredMarket :=
  (scoredPairs w df).map (fun p =>
    { country_code := p.1.country_code
      total_score := p.2
      components := componentScores w p.1
      rank := 1 + (scoredPairs w df).countP (fun q => decide (p.2 < q.2)) : ScoredMarket })

def score_markets (w : Weights) (df : List Market) : List ScoredMarket :=
  (rankedRows w df).mergeSort (fun a b => decide (a.rank ≤ b.rank))

/-- The renormalization following the spec's words for a weight vector whose
sum deviates from 1: "each weight divided by the total".  The source performs
no such renormalization; this definition exists to compare the two. -/
def renormalizeSpec (w : Weights) : Weights :=
  w.map (fun p => (p.1, p.2 / sumWeights w))

/-! ### Sensitivity analysis (`MarketScorer.sensitivity_analysis`) -/

/-- One recorded sensitivity point. -/
structure SensPoint where
  weight_name : String
  weight_value : ℚ
  country_code : String
  rank : ℕ
  total_score : ℚ

/-- The per-test-point weight vector of `sensitivity_analysis` (lines
101–111): set the varied key to `test_weight`, then multiply every other
key by `scale = (1 - test_weight) / other_weights_sum` when
`other_weights_sum > 0`, else leave the others unchanged. -/
def renormOthers (w : Weights) (name : String) (t : ℚ) : Weights :=
  let s := othersSum w name
  if 0 < s then
    w.map (fun p => if p.1 = name then (p.1, t) else (p.1, p.2 * ((1 - t) / s)))
  else
    w.map (fun p => if p.1 = name then (p.1, t) else p)

/-- The tested weight values: `np.linspace(max(0, orig - step*n//2),
min(1, orig + step*n//2), n_runs)`. -/
def weightValues (orig step : ℚ) (n_runs : ℕ) : List ℚ :=
  let halfspan := pyFloorDiv (step * n_runs) 2
  np_linspace (max 0 (orig - halfspan)) (min 1 (orig + halfspan)) n_runs

/-- The full weight vectors tested during one sensitivity sweep, in sweep
order. -/
def testVectors (w : Weights) (name : String) (step : ℚ) (n_runs : ℕ) : List Weights :=
  (weightValues ((w.lookup name).getD 0) step n_runs).map (renormOthers w name)

/-- The points recorded at one tested weight value: the top-3 rows of the
rescored table (`scored.head(3)`), each with the `total_score` of the first
row of `scored` carrying the same country code. -/
def sensPointsAt (w : Weights) (df : List Market) (name : String) (t : ℚ) : List SensPoint :=
  let scored := score_markets (renormOthers w name t) df
  (scored.take 3).map (fun r =>
    { weight_name := name
      weight_value := t
      country_code := r.country_code
      rank := r.rank
      total_score :=
        (((scored.filter (fun q => q.country_code = r.country_code)).map
          ScoredMarket.total_score).headD 0) })

/-- `MarketScorer.sensitivity_analysis`: raises `ValueError` when the varied
criterion is not a key of the weight dict, otherwise records the top-3 rows
at each tested weight value. -/
def sensitivity_analysis (w : Weights) (df : List Market) (name : String)
    (step : ℚ) (n_runs : ℕ) : Except String (List SensPoint) :=
  if name ∈ w.map Prod.fst then
    .ok (((weightValues ((w.lookup name).getD 0) step n_runs).map
      (sensPointsAt w df name)).flatten)
  else
    .error ("Weight " ++ name ++ " not found")

/-! ### Deterministic forecaster (`src/models/forecast.py`, `RevenueForecaster`) -/

/-- The assumption fields read by `RevenueForecaster`, after the `.get`
defaults have been resolved. -/
structure Assumptions where
  leads_per_month_initial : ℚ
  lead_to_opportunity : ℚ
  opportunity_to_win : ℚ
  sales_cycle_months : ℕ
  acv_usd : ℚ
  monthly_churn : ℚ
  gross_margin : ℚ
  cac_usd_per_customer : ℚ

/-- One row of the forecast table. -/
structure MonthRecord where
  month : ℕ
  new_leads : ℤ
  new_opportunities : ℤ
  new_wins : ℤ
  churned : ℤ
  active_customers : ℤ
  monthly_revenue : ℚ
  gross_revenue : ℚ
  acquisition_cost : ℚ
  cumulative_acquisition_cost : ℚ
  net_revenue : ℚ
  cumulative_net_revenue : ℚ

instance : Inhabited MonthRecord := ⟨⟨0, 0, 0, 0, 0, 0, 0, 0, 0, 0, 0, 0⟩⟩

/-- The per-month parameters after scenario multipliers and the market
adjustment have been applied (lines 40–61 of `forecast.py`). -/
structure FParams where
  leads : ℤ
  lead_to_opp : ℚ
  opp_to_win : ℚ
  monthly_churn : ℚ
  acv : ℚ
  gross_margin : ℚ
  cac : ℚ
  sales_cycle : ℕ

/-- Scenario multipliers of `forecast_revenue` applied to
`(lead_to_opp, opp_to_win, monthly_churn, market_adjustment)`. -/
def applyScenario (a : Assumptions) (adj : ℚ) (scenario : String) : ℚ × ℚ × ℚ × ℚ :=
  if scenario = "optimistic" then
    (a.lead_to_opportunity * (12 / 10), a.opportunity_to_win * (12 / 10),
     a.monthly_churn * (8 / 10), adj * (115 / 100))
  else if scenario = "pessimistic" then
    (a.lead_to_opportunity * (8 / 10), a.opportunity_to_win * (8 / 10),
     a.monthly_churn * (12 / 10), adj * (85 / 100))
  else
    (a.lead_to_opportunity, a.opportunity_to_win, a.monthly_churn, adj)

/-- The monthly loop of `forecast_revenue` (lines 68–113).  `acc` is the
`results` list built so far; the recorded `cumulative_net_revenue` re-sums
the entire history (`sum(r["net_revenue"] for r in results) + ...`). -/
def forecastAux (p : FParams) (active : ℤ) (totalAcq : ℚ)
    (acc : List MonthRecord) (month rem : ℕ) : List MonthRecord :=
  match rem with
  | 0 => acc
  | Nat.succ r =>
    let opps : ℚ := if p.sales_cycle ≤ month then (p.leads : ℚ) * p.lead_to_opp else 0
    let wins : ℤ := if p.sales_cycle ≤ month then pyInt (opps * p.opp_to_win) else 0
    let churned : ℤ := pyInt ((active : ℚ) * p.monthly_churn)
    let active2 : ℤ := max 0 (active - churned + wins)
    let mrev : ℚ := (active2 : ℚ) * (p.acv / 12)
    let acqCost : ℚ := (wins : ℚ) * p.cac
    let totalAcq2 : ℚ := totalAcq + acqCost
    let grev : ℚ := mrev * p.gross_margin
    let rec0 : MonthRecord :=
      { month := month
        new_leads := p.leads
        new_opportunities := if p.sales_cycle ≤ month then pyInt opps else 0
        new_wins := wins
        churned := churned
        active_customers := active2
        monthly_revenue := mrev
        gross_revenue := grev
        acquisition_cost := acqCost
        cumulative_acquisition_cost := totalAcq2
        net_revenue := grev - acqCost
        cumulative_net_revenue :=
          (acc.map MonthRecord.net_revenue).sum + (grev - acqCost) }
    forecastAux p active2 totalAcq2 (acc ++ [rec0]) (month + 1) r

/-- `RevenueForecaster.forecast_revenue`. -/
def forecast_revenue (a : Assumptions) (months : ℕ) (market_adjustment : ℚ)
    (scenario : String) : List MonthRecord :=
  let q := applyScenario a market_adjustment scenario
  let leads : ℤ := pyInt (a.leads_per_month_initial * q.2.2.2)
  forecastAux
    { leads := leads, lead_to_opp := q.1, opp_to_win := q.2.1,
      monthly_churn := q.2.2.1, acv := a.acv_usd, gross_margin := a.gross_margin,
      cac := a.cac_usd_per_customer, sales_cycle := a.sales_cycle_months }
    0 0 [] 1 months

/-- The monthly loop with `cumulative_net_revenue` maintained by a single
running accumulator `cumNet` instead of re-summing the history — the
refinement suggested by the spec's design notes. -/
def forecastAccAux (p : FParams) (active : ℤ) (totalAcq cumNet : ℚ)
    (acc : List MonthRecord) (month rem : ℕ) : List MonthRecord :=
  match rem with
  | 0 => acc
  | Nat.succ r =>
    let opps : ℚ := if p.sales_cycle ≤ month then (p.leads : ℚ) * p.lead_to_opp else 0
    let wins : ℤ := if p.sales_cycle ≤ month then pyInt (opps * p.opp_to_win) else 0
    let churned : ℤ := pyInt ((active : ℚ) * p.monthly_churn)
    let active2 : ℤ := max 0 (active - churned + wins)
    let mrev : ℚ := (active2 : ℚ) * (p.acv / 12)
    let acqCost : ℚ := (wins : ℚ) * p.cac
    let totalAcq2 : ℚ := totalAcq + acqCost
    let grev : ℚ := mrev * p.gross_margin
    let cumNet2 : ℚ := cumNet + (grev - acqCost)
    let rec0 : MonthRecord :=
      { month := month
        new_leads := p.leads
        new_opportunities := if p.sales_cycle ≤ month then pyInt opps else 0
        new_wins := wins
        churned := churned
        active_customers := active2
        monthly_revenue := mrev
        gross_revenue := grev
        acquisition_cost := acqCost
        cumulative_acquisition_cost := totalAcq2
        net_revenue := grev - acqCost
        cumulative_net_revenue := cumNet2 }
    forecastAccAux p active2 totalAcq2 cumNet2 (acc ++ [rec0]) (month + 1) r

/-- `forecast_revenue` with the running-accumulator refinement. -/
def forecast_revenue_acc (a : Assumptions) (months : ℕ) (market_adjustment : ℚ)
    (scenario : String) : List MonthRecord :=
  let q := applyScenario a market_adjustment scenario
  let leads : ℤ := pyInt (a.leads_per_month_initial * q.2.2.2)
  forecastAccAux
    { leads := leads, lead_to_opp := q.1, opp_to_win := q.2.1,
      monthly_churn := q.2.2.1, acv := a.acv_usd, gross_margin := a.gross_margin,
      cac := a.cac_usd_per_customer, sales_cycle := a.sales_cycle_months }
    0 0 0 [] 1 months

/-- `RevenueForecaster.calculate_payback_period`: the `month` of the first
row whose `cumulative_net_revenue` meets `entry_cost`, as a float, or `-1.0`. -/
def calculate_payback_period (records : List MonthRecord) (entry_cost : ℚ) : ℚ :=
  match records.find? (fun r => decide (entry_cost ≤ r.cumulative_net_revenue)) with
  | some r => (r.month : ℚ)
  | none => -1

/-- `cumulative_net_revenue` of every row equals the sum of `net_revenue`
over the rows up to and including it. -/
def cumNetOk (l : List MonthRecord) : Prop :=
  ∀ i, i < l.length →
    (l.getD i default).cumulative_net_revenue =
      ((l.take (i + 1)).map MonthRecord.net_revenue).sum

/-! ### Monte Carlo simulator (`src/models/monte_carlo.py`, `MonteCarloSimulator`)

The numpy global PRNG is modelled abstractly: its state is a seed plus a
draw counter, and an `Entropy` function gives the (arbitrary) value of each
successive raw draw for each seed.  `np.random.seed n` replaces the global
state by the state determined by `n`.  The individual distribution draws
consume one unit of entropy each and are constrained only to the support of
the corresponding distribution (their distributional shape plays no role in
the verified properties); a draw is made exactly where the source makes one. -/

/-- The raw draw stream of the PRNG: seed → draw counter → value. -/
abbrev Entropy := ℕ → ℕ → ℚ

/-- The global numpy PRNG state. -/
structure RState where
  seed : ℕ
  counter : ℕ

/-- `np.random.seed n`. -/
def np_seed (n : ℕ) : RState := ⟨n, 0⟩

/-- Advance the PRNG by one raw draw. -/
def bumpR (g : RState) : RState := ⟨g.seed, g.counter + 1⟩

/-- `np.random.normal(mu, sd)`: an affine image of one raw draw. -/
def normalDraw (e : Entropy) (g : RState) (mu sd : ℚ) : ℚ × RState :=
  (mu + sd * e g.seed g.counter, bumpR g)

/-- `np.random.poisson(lam)`: one raw draw constrained to `ℕ`. -/
def poissonDraw (e : Entropy) (g : RState) (_lam : ℚ) : ℤ × RState :=
  (max 0 (pyInt (e g.seed g.counter)), bumpR g)

/-- `np.random.binomial(n, p)`: one raw draw constrained to `[0, max 0 n]`. -/
def binomialDraw (e : Entropy) (g : RState) (n : ℤ) (_p : ℚ) : ℤ × RState :=
  (min (max 0 (pyInt (e g.seed g.counter))) (max 0 n), bumpR g)

/-- The assumption fields read by `MonteCarloSimulator`, after `.get`
defaults have been resolved. -/
structure MCAssumptions where
  leads_per_month_initial : ℚ
  lead_to_opportunity : ℚ
  opportunity_to_win : ℚ
  monthly_churn : ℚ
  cac_usd_per_customer : ℚ
  acv_usd : ℚ
  gross_margin : ℚ
  sales_cycle_months : ℕ
  lead_to_opportunity_sd : ℚ
  opportunity_to_win_sd : ℚ
  churn_sd : ℚ
  cac_sd : ℚ

/-- The effective per-batch configuration (after `market_adjustment` has been
multiplied into `base_leads`). -/
structure MCConfig where
  base_leads : ℚ
  base_lead_to_opp : ℚ
  base_opp_to_win : ℚ
  base_churn : ℚ
  base_cac : ℚ
  acv : ℚ
  gross_margin : ℚ
  sales_cycle : ℕ
  lead_to_opp_sd : ℚ
  opp_to_win_sd : ℚ
  churn_sd : ℚ
  cac_sd : ℚ

/-- The parameters sampled once per simulation (lines 67–82). -/
structure MCParams where
  lead_to_opp : ℚ
  opp_to_win : ℚ
  churn_rate : ℚ
  cac : ℚ

/-- Lines 67–82: four clipped normal samples, one per uncertain parameter. -/
def sampleParams (e : Entropy) (cfg : MCConfig) (g : RState) : MCParams × RState :=
  let d1 := normalDraw e g cfg.base_lead_to_opp cfg.lead_to_opp_sd
  let d2 := normalDraw e d1.2 cfg.base_opp_to_win cfg.opp_to_win_sd
  let d3 := normalDraw e d2.2 cfg.base_churn cfg.churn_sd
  let d4 := normalDraw e d3.2 cfg.base_cac cfg.cac_sd
  ({ lead_to_opp := np_clip d1.1 (1 / 20) (1 / 2)
     opp_to_win := np_clip d2.1 (1 / 20) (1 / 2)
     churn_rate := np_clip d3.1 (1 / 200) (1 / 20)
     cac := np_clip d4.1 8000 25000 }, d4.2)

/-- One row of the simulation panel. -/
structure SimRow where
  simulation : ℕ
  month : ℕ
  active_customers : ℤ
  monthly_revenue : ℚ
  cumulative_revenue : ℚ
  cumulative_cost : ℚ
  net_revenue : ℚ

/-- The monthly loop of one simulation (lines 91–127).  The binomial for
wins is only drawn once `month ≥ sales_cycle`, exactly as in the source. -/
def simMonths (e : Entropy) (cfg : MCConfig) (p : MCParams) (sim : ℕ)
    (active : ℤ) (totRev totCost : ℚ) (month rem : ℕ) (g : RState) :
    List SimRow × RState :=
  match rem with
  | 0 => ([], g)
  | Nat.succ r =>
    let dLeads := poissonDraw e g cfg.base_leads
    let leads : ℤ := dLeads.1
    let opps : ℤ := if cfg.sales_cycle ≤ month then pyInt ((leads : ℚ) * p.lead_to_opp) else 0
    let dWins := if cfg.sales_cycle ≤ month then binomialDraw e dLeads.2 opps p.opp_to_win
                 else (0, dLeads.2)
    let wins : ℤ := dWins.1
    let dChurn := binomialDraw e dWins.2 active p.churn_rate
    let churned : ℤ := dChurn.1
    let active2 : ℤ := max 0 (active - churned + wins)
    let mrev : ℚ := (active2 : ℚ) * (cfg.acv / 12)
    let totRev2 : ℚ := totRev + mrev
    let acqCost : ℚ := (wins : ℚ) * p.cac
    let totCost2 : ℚ := totCost + acqCost
    let row : SimRow :=
      { simulation := sim
        month := month
        active_customers := active2
        monthly_revenue := mrev
        cumulative_revenue := totRev2 * cfg.gross_margin
        cumulative_cost := totCost2
        net_revenue := totRev2 * cfg.gross_margin - totCost2 }
    let rest := simMonths e cfg p sim active2 totRev2 totCost2 (month + 1) r dChurn.2
    (row :: rest.1, rest.2)

/-- One full simulation: sample the uncertain parameters, then run the
monthly loop from an empty state. -/
def simOne (e : Entropy) (cfg : MCConfig) (sim months : ℕ) (g : RState) :
    List SimRow × RState :=
  let ps := sampleParams e cfg g
  simMonths e cfg ps.1 sim 0 0 0 1 months ps.2

/-- The batch loop `for sim in range(n_sims)` building `all_results`. -/
def simAll (e : Entropy) (cfg : MCConfig) (months sim rem : ℕ) (g : RState) :
    List SimRow × RState :=
  match rem with
  | 0 => ([], g)
  | Nat.succ r =>
    let first := simOne e cfg sim months g
    let rest := simAll e cfg months (sim + 1) r first.2
    (first.1 ++ rest.1, rest.2)

/-- The five aggregates pandas computes for one column of one monthly group:
`mean`, `std` (sample), `median`, P10, P90, each rounded to two decimals. -/
structure ColSummary where
  mean : ℚ
  std : ℝ
  median : ℚ
  p10 : ℚ
  p90 : ℚ

/-- Aggregate one column of one monthly group. -/
noncomputable def colSummary (xs : List ℚ) : ColSummary :=
  { mean := npRound2 (npMean xs)
    std := npRound2R (sampleStd xs)
    median := npRound2 (npPercentile xs 50)
    p10 := npRound2 (npPercentile xs 10)
    p90 := npRound2 (npPercentile xs 90) }

/-- One row of the monthly summary table. -/
structure SummaryRow where
  month : ℕ
  monthly_revenue : ColSummary
  cumulative_revenue : ColSummary
  cumulative_cost : ColSummary
  net_revenue : ColSummary
  active_customers : ColSummary

/-- `results_df.groupby("month")[summary_cols].agg([...])` (lines 134–144):
group keys in ascending order, five aggregates per column. -/
noncomputable def monthlySummary (panel : List SimRow) : List SummaryRow :=
  ((uniqueFirst (panel.map SimRow.month)).mergeSort (fun a b => decide (a ≤ b))).map
    (fun m =>
      let rows := panel.filter (fun r => r.month = m)
      { month := m
        monthly_revenue := colSummary (rows.map SimRow.monthly_revenue)
        cumulative_revenue := colSummary (rows.map SimRow.cumulative_revenue)
        cumulative_cost := colSummary (rows.map SimRow.cumulative_cost)
        net_revenue := colSummary (rows.map SimRow.net_revenue)
        active_customers := colSummary (rows.map (fun r => (r.active_customers : ℚ))) })

/-- `MonteCarloSimulator.simulate_revenue`.  The incoming global PRNG state
`g` is immediately overwritten by `np.random.seed(42)` (line 63), which is
what makes the batch reproducible. -/
noncomputable def simulate_revenue (e : Entropy) (a : MCAssumptions)
    (months n_sims : ℕ) (market_adjustment : ℚ) (g : RState) :
    List SimRow × List SummaryRow :=
  let _ := g
  let cfg : MCConfig :=
    { base_leads := a.leads_per_month_initial * market_adjustment
      base_lead_to_opp := a.lead_to_opportunity
      base_opp_to_win := a.opportunity_to_win
      base_churn := a.monthly_churn
      base_cac := a.cac_usd_per_customer
      acv := a.acv_usd
      gross_margin := a.gross_margin
      sales_cycle := a.sales_cycle_months
      lead_to_opp_sd := a.lead_to_opportunity_sd
      opp_to_win_sd := a.opportunity_to_win_sd
      churn_sd := a.churn_sd
      cac_sd := a.cac_sd }
    let panel := (simAll e cfg months 0 n_sims (np_seed 42)).1
    (panel, monthlySummary panel)

/-- Payback of one simulation (lines 165–175): its rows in month order, then
the `month` of the first row with `net_revenue ≥ entry_cost`, else `-1`. -/
def simPayback (panel : List SimRow) (sid : ℕ) (entry_cost : ℚ) : ℤ :=
  let rows := (panel.filter (fun r => r.simulation = sid)).mergeSort
    (fun a b => decide (a.month ≤ b.month))
  match rows.find? (fun r => decide (entry_cost ≤ r.net_revenue)) with
  | some r => (r.month : ℤ)
  | none => -1

/-- The per-simulation payback list, over `simulation_results["simulation"].unique()`. -/
def paybackList (panel : List SimRow) (entry_cost : ℚ) : List ℤ :=
  (uniqueFirst (panel.map SimRow.simulation)).map (fun sid => simPayback panel sid entry_cost)

/-- The `stats_dict` of `calculate_payback_distribution`. -/
structure PaybackStats where
  mean : ℚ
  median : ℚ
  std : ℝ
  p10 : ℚ
  p90 : ℚ
  never_pays_back_pct : ℚ

/-- `MonteCarloSimulator.calculate_payback_distribution` (lines 163–204):
the payback table plus summary statistics over `valid_paybacks = [p for p in
payback_periods if p > 0]`, with the degenerate all-`-1` fallback. -/
noncomputable def calculate_payback_distribution (panel : List SimRow)
    (entry_cost : ℚ) : List (ℕ × ℤ) × PaybackStats :=
  let pbs := paybackList panel entry_cost
  let payback_df := (List.range pbs.length).zip pbs
  let valid := pbs.filter (fun p => decide (0 < p))
  let validQ : List ℚ := valid.map (fun z => (z : ℚ))
  if valid.length ≠ 0 then
    (payback_df,
      { mean := npMean validQ
        median := npPercentile validQ 50
        std := npStd validQ
        p10 := npPercentile validQ 10
        p90 := npPercentile validQ 90
        never_pays_back_pct :=
          ((pbs.length - valid.length : ℕ) : ℚ) / (pbs.length : ℚ) * 100 })
  else
    (payback_df,
      { mean := -1, median := -1, std := 0, p10 := -1, p90 := -1,
        never_pays_back_pct := 100 })

/-! ### Helper lemmas -/

theorem np_clip_mem (x lo hi : ℚ) (h : lo ≤ hi) :
    lo ≤ np_clip x lo hi ∧ np_clip x lo hi ≤ hi := by
  constructor
  · exact le_min (le_max_right x lo) h
  · exact min_le_right _ _

/-! ### Claim theorems -/

/-- C7: for fixed entropy, assumptions, horizon, simulation count and market
adjustment, two invocations of `simulate_revenue` from arbitrary (and
possibly different) incoming global PRNG states return identical panels and
identical monthly summary tables, because the batch begins by reseeding the
generator with the fixed seed 42. -/
theorem simulate_revenue_deterministic (e : Entropy) (a : MCAssumptions)
    (months n_sims : ℕ) (market_adjustment : ℚ) (g1 g2 : RState) :
    simulate_revenue e a months n_sims market_adjustment g1 =
      simulate_revenue e a months n_sims market_adjustment g2 := rfl

/-- C8: the once-per-simulation sampled parameters always lie in their
clipping bounds — `lead_to_opp` and `opp_to_win` in `[0.05, 0.50]`,
`churn_rate` in `[0.005, 0.05]`, `cac` in `[8000, 25000]` — so the
probability arguments handed to the binomial draws for wins
(`opp_to_win`) and churn (`churn_rate`) are valid probabilities in `[0, 1]`,
for every entropy source, configuration and PRNG state. -/
theorem sampleParams_within_clip_bounds (e : Entropy) (cfg : MCConfig) (g : RState) :
    (1 / 20 ≤ ((sampleParams e cfg g).1).lead_to_opp ∧
      ((sampleParams e cfg g).1).lead_to_opp ≤ 1 / 2) ∧
    (1 / 20 ≤ ((sampleParams e cfg g).1).opp_to_win ∧
      ((sampleParams e cfg g).1).opp_to_win ≤ 1 / 2) ∧
    (1 / 200 ≤ ((sampleParams e cfg g).1).churn_rate ∧
      ((sampleParams e cfg g).1).churn_rate ≤ 1 / 20) ∧
    (8000 ≤ ((sampleParams e cfg g).1).cac ∧ ((sampleParams e cfg g).1).cac ≤ 25000) ∧
    (0 ≤ ((sampleParams e cfg g).1).opp_to_win ∧ ((sampleParams e cfg g).1).opp_to_win ≤ 1) ∧
    (0 ≤ ((sampleParams e cfg g).1).churn_rate ∧ ((sampleParams e cfg g).1).churn_rate ≤ 1) := by
  have key1 : ∀ x : ℚ, 1 / 20 ≤ np_clip x (1 / 20) (1 / 2) ∧ np_clip x (1 / 20) (1 / 2) ≤ 1 / 2 :=
    fun x => np_clip_mem x _ _ (by norm_num)
  have key2 : ∀ x : ℚ,
      1 / 200 ≤ np_clip x (1 / 200) (1 / 20) ∧ np_clip x (1 / 200) (1 / 20) ≤ 1 / 20 :=
    fun x => np_clip_mem x _ _ (by norm_num)
  have key3 : ∀ x : ℚ, 8000 ≤ np_clip x 8000 25000 ∧ np_clip x 8000 25000 ≤ 25000 :=
    fun x => np_clip_mem x _ _ (by norm_num)
  simp only [sampleParams]
  exact ⟨key1 _, key1 _, key2 _, key3 _,
    ⟨le_trans (by norm_num) (key1 _).1, le_trans (key1 _).2 (by norm_num)⟩,
    ⟨le_trans (by norm_num) (key2 _).1, le_trans (key2 _).2 (by norm_num)⟩⟩

/-- C10: `sensitivity_analysis` fails with the invalid-argument error if and
only if the requested criterion name is absent from the base weight vector;
with the criterion present it returns a result. -/
theorem sensitivity_analysis_error_iff (w : Weights) (df : List Market)
    (name : String) (step : ℚ) (n_runs : ℕ) :
    (∃ msg, sensitivity_analysis w df name step n_runs = .error msg) ↔
      name ∉ w.map Prod.fst := by
  by_cases h : name ∈ w.map Prod.fst <;> simp [sensitivity_analysis, h]

theorem totalScore_cons (p : String × ℚ) (rest : Weights) (m : Market) :
    totalScore (p :: rest) m = featureContribution m p + totalScore rest m := by
  simp [totalScore]

theorem featureContribution_div (m : Market) (p : String × ℚ) (s : ℚ) :
    featureContribution m (p.1, p.2 / s) = featureContribution m p / s := by
  unfold featureContribution
  rcases h1 : featureMapping p.1 with _ | col
  · simp
  · show (match m.features.lookup col with
      | none => (0 : ℚ)
      | some v => p.2 / s * v) =
      (match m.features.lookup col with
        | none => (0 : ℚ)
        | some v => p.2 * v) / s
    rcases h2 : m.features.lookup col with _ | v
    · simp
    · show p.2 / s * v = p.2 * v / s
      ring

theorem totalScore_map_div (w : Weights) (m : Market) (s : ℚ) :
    totalScore (w.map (fun p => (p.1, p.2 / s))) m = totalScore w m / s := by
  induction w with
  | nil => simp [totalScore]
  | cons p rest ih =>
    rw [List.map_cons, totalScore_cons, totalScore_cons, featureContribution_div, ih, add_div]

/-- C1 (amended): when the weight sum deviates from 1.0 by more than 0.01
the scorer emits a non-fatal warning but performs no renormalization;
`score_markets` computes its scores from the weights exactly as given, so
each `total_score` equals the weight total times the score of the
proportionally renormalized vector (rather than being equal to it), and the
call never fails on this condition. -/
theorem score_markets_warning_no_renormalize (w : Weights) (m : Market)
    (h : sumWeights w ≠ 0) :
    (|sumWeights w - 1| > 1 / 100 → emitsWeightWarning w) ∧
    totalScore w m = sumWeights w * totalScore (renormalizeSpec w) m := by
  refine ⟨fun hh => hh, ?_⟩
  unfold renormalizeSpec
  rw [totalScore_map_div, mul_div_cancel₀ _ h]

/-- C1 witness: the amended statement at the concrete weight vector
`{market_size: 2.0}` and a market with standardized market size 1. -/
theorem score_markets_warning_no_renormalize_witness :
    (|sumWeights [(("market_size" : String), (2 : ℚ))] - 1| > 1 / 100 →
      emitsWeightWarning [(("market_size" : String), (2 : ℚ))]) ∧
    totalScore [(("market_size" : String), (2 : ℚ))]
        ⟨"AUS", [("market_size_score_standardized", 1)]⟩ =
      sumWeights [(("market_size" : String), (2 : ℚ))] *
        totalScore (renormalizeSpec [(("market_size" : String), (2 : ℚ))])
          ⟨"AUS", [("market_size_score_standardized", 1)]⟩ :=
  score_markets_warning_no_renormalize _ _ (by norm_num [sumWeights])

/-- C1 counterexample: for the weight vector `{market_size: 2.0}` (sum 2,
deviation 1 > 0.01) over a market whose standardized market size is 1, the
warning fires but `total_score` is 2, while the proportionally renormalized
vector would give 1 — `score_markets` does not return the renormalized
scores, refuting the claim as stated. -/
theorem weight_renormalization_counterexample :
    emitsWeightWarning [(("market_size" : String), (2 : ℚ))] ∧
    totalScore [(("market_size" : String), (2 : ℚ))]
        ⟨"AUS", [("market_size_score_standardized", 1)]⟩ = 2 ∧
    totalScore (renormalizeSpec [(("market_size" : String), (2 : ℚ))])
        ⟨"AUS", [("market_size_score_standardized", 1)]⟩ = 1 := by
  refine ⟨?_, ?_, ?_⟩
  · show |sumWeights _ - 1| > 1 / 100
    norm_num [sumWeights]
  · norm_num [totalScore, featureContribution, featureMapping, List.lookup]
  · norm_num [totalScore, renormalizeSpec, sumWeights, featureContribution,
      featureMapping, List.lookup]

theorem sumWeights_cons (p : String × ℚ) (rest : Weights) :
    sumWeights (p :: rest) = p.2 + sumWeights rest := by
  simp [sumWeights]

theorem othersSum_cons (p : String × ℚ) (rest : Weights) (name : String) :
    othersSum (p :: rest) name = (if p.1 = name then 0 else p.2) + othersSum rest name := by
  by_cases h : p.1 = name <;> simp [othersSum, List.filter_cons, h]

theorem countP_key_eq_one (w : Weights) (name : String)
    (hnd : (w.map Prod.fst).Nodup) (hmem : name ∈ w.map Prod.fst) :
    w.countP (fun p => decide (p.1 = name)) = 1 := by
  induction w with
  | nil => simp at hmem
  | cons p rest ih =>
    rw [List.map_cons, List.nodup_cons] at hnd
    rw [List.map_cons, List.mem_cons] at hmem
    by_cases h : p.1 = name
    · have hz : rest.countP (fun p => decide (p.1 = name)) = 0 := by
        rw [List.countP_eq_zero]
        intro q hq
        simp only [decide_eq_true_eq]
        intro hq1
        exact hnd.1 (h ▸ hq1 ▸ List.mem_map_of_mem Prod.fst hq)
      rw [List.countP_cons, hz]
      simp [h]
    · have hmem2 : name ∈ rest.map Prod.fst := by
        rcases hmem with h1 | h1
        · exact absurd h1.symm h
        · exact h1
      rw [List.countP_cons, ih hnd.2 hmem2]
      simp [h]

theorem sumWeights_scale_map (w : Weights) (name : String) (t s : ℚ) :
    sumWeights (w.map (fun p => if p.1 = name then (p.1, t) else (p.1, p.2 * s))) =
      (w.countP (fun p => decide (p.1 = name)) : ℚ) * t + s * othersSum w name := by
  induction w with
  | nil => simp [sumWeights, othersSum]
  | cons p rest ih =>
    rw [List.map_cons, sumWeights_cons, ih, List.countP_cons, othersSum_cons]
    by_cases h : p.1 = name
    · simp [h]
      ring
    · simp [h]
      ring

theorem sumWeights_set_map (w : Weights) (name : String) (t : ℚ) :
    sumWeights (w.map (fun p => if p.1 = name then (p.1, t) else p)) =
      (w.countP (fun p => decide (p.1 = name)) : ℚ) * t + othersSum w name := by
  induction w with
  | nil => simp [sumWeights, othersSum]
  | cons p rest ih =>
    rw [List.map_cons, sumWeights_cons, ih, List.countP_cons, othersSum_cons]
    by_cases h : p.1 = name
    · simp [h]
      ring
    · simp [h]
      ring

/-- C3 (amended): for every base weight vector (with the distinct keys of a
dict), every varied criterion present in it, and every point of the
sensitivity sweep, *provided the other weights' prior sum is positive*, the
tested weight plus the rescaled sum of all other weights equals 1.0 exactly.
(When the prior sum of the other weights is 0 they remain unchanged, and the
tested vector sums to the tested weight value alone, which is in general not
1.0 — see the counterexample.) -/
theorem testVectors_sum_one (w : Weights) (name : String) (step : ℚ) (n_runs : ℕ)
    (hnd : (w.map Prod.fst).Nodup) (hmem : name ∈ w.map Prod.fst)
    (hpos : 0 < othersSum w name) :
    ∀ tw ∈ testVectors w name step n_runs, sumWeights tw = 1 := by
  intro tw htw
  obtain ⟨t, _, rfl⟩ := List.mem_map.1 htw
  unfold renormOthers
  rw [if_pos hpos, sumWeights_scale_map, countP_key_eq_one w name hnd hmem]
  rw [div_mul_eq_mul_div, mul_div_assoc, div_self (ne_of_gt hpos), mul_one]
  push_cast
  ring

/-- C3 witness: the amended statement for the base vector
`{market_size: 0.5, purchasing_power: 0.5}`, varying `market_size` with
`step = 0.05` over 3 points, instantiated at the first tested vector. -/
theorem testVectors_sum_one_witness :
    [(("market_size" : String), (1 / 2 : ℚ)), ("purchasing_power", 1 / 2)] ∈
      testVectors [(("market_size" : String), (1 / 2 : ℚ)), ("purchasing_power", 1 / 2)]
        "market_size" (1 / 20) 3 ∧
    sumWeights [(("market_size" : String), (1 / 2 : ℚ)), ("purchasing_power", 1 / 2)] = 1 := by
  have h1 : renormOthers [(("market_size" : String), (1 / 2 : ℚ)), ("purchasing_power", 1 / 2)]
      "market_size" (1 / 2) =
      [(("market_size" : String), (1 / 2 : ℚ)), ("purchasing_power", 1 / 2)] := by
    unfold renormOthers
    rw [if_pos (by simp [othersSum, List.filter_cons])]
    simp [othersSum, List.filter_cons]
    norm_num
  have h2 : weightValues (1 / 2) (1 / 20) 3 = [1 / 2, 1 / 2, 1 / 2] := by
    unfold weightValues pyFloorDiv np_linspace
    norm_num [List.range_succ]
  have hmem : [(("market_size" : String), (1 / 2 : ℚ)), ("purchasing_power", 1 / 2)] ∈
      testVectors [(("market_size" : String), (1 / 2 : ℚ)), ("purchasing_power", 1 / 2)]
        "market_size" (1 / 20) 3 := by
    unfold testVectors
    rw [show ((([(("market_size" : String), (1 / 2 : ℚ)),
        ("purchasing_power", 1 / 2)] : Weights).lookup "market_size").getD 0) = 1 / 2 by
      simp [List.lookup]]
    rw [h2, List.map_cons, h1]
    exact List.mem_cons_self _ _
  exact ⟨hmem, testVectors_sum_one _ _ _ _ (by simp) (by simp)
    (by simp [othersSum, List.filter_cons]) _ hmem⟩

/-- C3 counterexample: for the base vector `{market_size: 1.0,
purchasing_power: 0.0}` (other weights' prior sum 0), varying `market_size`
with `step = 1` over 2 points, the first recorded sweep point uses the
weight vector `{market_size: 0.0, purchasing_power: 0.0}`, whose total is 0,
not 1.0: the tested weight plus the (unchanged) other weights does not sum
to 1.0. -/
theorem sweep_sum_counterexample :
    (testVectors [(("market_size" : String), (1 : ℚ)), ("purchasing_power", 0)]
        "market_size" 1 2).head? =
      some [(("market_size" : String), (0 : ℚ)), ("purchasing_power", 0)] ∧
    sumWeights [(("market_size" : String), (0 : ℚ)), ("purchasing_power", 0)] = 0 := by
  constructor
  · have hyp : weightValues ((([(("market_size" : String), (1 : ℚ)),
        ("purchasing_power", 0)] : Weights).lookup "market_size").getD 0) 1 2 = [0, 1] := by
      rw [show (([(("market_size" : String), (1 : ℚ)),
        ("purchasing_power", 0)] : Weights).lookup "market_size").getD 0 = 1 by
          simp [List.lookup]]
      unfold weightValues pyFloorDiv np_linspace
      norm_num [List.range_succ]
    unfold testVectors
    rw [hyp, List.map_cons, List.head?_cons]
    rw [show renormOthers [(("market_size" : String), (1 : ℚ)), ("purchasing_power", 0)]
        "market_size" 0 = [(("market_size" : String), (0 : ℚ)), ("purchasing_power", 0)] by
      unfold renormOthers
      rw [if_neg (by simp [othersSum, List.filter_cons])]
      simp]
  · norm_num [sumWeights]

theorem forecastAux_length (p : FParams) (active : ℤ) (totalAcq : ℚ)
    (acc : List MonthRecord) (month rem : ℕ) :
    (forecastAux p active totalAcq acc month rem).length = acc.length + rem := by
  induction rem generalizing active totalAcq acc month with
  | zero => simp [forecastAux]
  | succ r ih =>
    rw [forecastAux, ih]
    simp
    omega

theorem forecastAux_months (p : FParams) (active : ℤ) (totalAcq : ℚ)
    (acc : List MonthRecord) (month rem : ℕ) :
    (forecastAux p active totalAcq acc month rem).map MonthRecord.month =
      acc.map MonthRecord.month ++ List.range' month rem := by
  induction rem generalizing active totalAcq acc month with
  | zero => simp [forecastAux]
  | succ r ih =>
    rw [forecastAux, ih, List.range'_succ]
    simp

theorem forecastAux_active_nonneg (p : FParams) (active : ℤ) (totalAcq : ℚ)
    (acc : List MonthRecord) (month rem : ℕ)
    (hacc : ∀ r ∈ acc, 0 ≤ r.active_customers) :
    ∀ r ∈ forecastAux p active totalAcq acc month rem, 0 ≤ r.active_customers := by
  induction rem generalizing active totalAcq acc month with
  | zero => simpa [forecastAux] using hacc
  | succ r ih =>
    rw [forecastAux]
    apply ih
    intro q hq
    rcases List.mem_append.1 hq with h1 | h1
    · exact hacc q h1
    · rw [List.mem_singleton] at h1
      subst h1
      exact le_max_left 0 _

theorem forecast_revenue_length (a : Assumptions) (months : ℕ)
    (market_adjustment : ℚ) (scenario : String) :
    (forecast_revenue a months market_adjustment scenario).length = months := by
  unfold forecast_revenue
  rw [forecastAux_length]
  simp

/-- C4: for every assumptions configuration and every horizon of `N ≥ 1`
months, `forecast_revenue` returns exactly `N` month records, their `month`
values are `1, 2, …, N` in increasing order, and `active_customers` is
non-negative in every record (it is maintained by
`max(0, active - churned + wins)`). -/
theorem forecast_revenue_shape (a : Assumptions) (months : ℕ)
    (market_adjustment : ℚ) (scenario : String) (_hm : 1 ≤ months) :
    (forecast_revenue a months market_adjustment scenario).length = months ∧
    (forecast_revenue a months market_adjustment scenario).map MonthRecord.month =
      List.range' 1 months ∧
    ∀ r ∈ forecast_revenue a months market_adjustment scenario,
      0 ≤ r.active_customers := by
  refine ⟨forecast_revenue_length a months market_adjustment scenario, ?_, ?_⟩
  · unfold forecast_revenue
    rw [forecastAux_months]
    simp
  · unfold forecast_revenue
    exact forecastAux_active_nonneg _ _ _ _ _ _ (by simp)

/-- C4 witness: the spec's own test configuration (`leads=100,
lead_to_opp=0.2, opp_to_win=0.25, sales_cycle=2, churn=0.02, acv=20000,
margin=0.8, cac=15000, months=12`). -/
theorem forecast_revenue_shape_witness :
    (forecast_revenue ⟨100, 1/5, 1/4, 2, 20000, 1/50, 4/5, 15000⟩ 12 1 "base").length = 12 ∧
    (forecast_revenue ⟨100, 1/5, 1/4, 2, 20000, 1/50, 4/5, 15000⟩ 12 1 "base").map
      MonthRecord.month = List.range' 1 12 ∧
    ∀ r ∈ forecast_revenue ⟨100, 1/5, 1/4, 2, 20000, 1/50, 4/5, 15000⟩ 12 1 "base",
      0 ≤ r.active_customers :=
  forecast_revenue_shape _ 12 1 "base" (by decide)

theorem forecastAux_acc_eq (p : FParams) (active : ℤ) (totalAcq cumNet : ℚ)
    (acc : List MonthRecord) (month rem : ℕ)
    (h : cumNet = (acc.map MonthRecord.net_revenue).sum) :
    forecastAccAux p active totalAcq cumNet acc month rem =
      forecastAux p active totalAcq acc month rem := by
  induction rem generalizing active totalAcq cumNet acc month with
  | zero => rw [forecastAux, forecastAccAux]
  | succ r ih =>
    subst h
    rw [forecastAux, forecastAccAux]
    exact ih _ _ _ _ _ (by simp)

theorem cumNetOk_append (acc : List MonthRecord) (r0 : MonthRecord)
    (h1 : cumNetOk acc)
    (h2 : r0.cumulative_net_revenue =
      (acc.map MonthRecord.net_revenue).sum + r0.net_revenue) :
    cumNetOk (acc ++ [r0]) := by
  intro i hi
  rw [List.length_append, List.length_singleton] at hi
  rcases lt_or_ge i acc.length with hlt | hge
  · rw [List.getD_append _ _ _ _ hlt,
      List.take_append_of_le_length (by omega : i + 1 ≤ acc.length)]
    exact h1 i hlt
  · have hieq : i = acc.length := by omega
    subst hieq
    rw [List.getD_append_right _ _ _ _ hge]
    simp only [Nat.sub_self, List.getD, List.get?_eq_getElem?]
    rw [List.take_of_length_le (by simp)]
    simpa using h2

theorem forecastAux_cumNetOk (p : FParams) (active : ℤ) (totalAcq : ℚ)
    (acc : List MonthRecord) (month rem : ℕ) (hacc : cumNetOk acc) :
    cumNetOk (forecastAux p active totalAcq acc month rem) := by
  induction rem generalizing active totalAcq acc month with
  | zero => simpa [forecastAux] using hacc
  | succ r ih =>
    rw [forecastAux]
    exact ih _ _ _ _ (cumNetOk_append _ _ hacc rfl)

/-- C5: in every table returned by `forecast_revenue`, the
`cumulative_net_revenue` of the record at index `i` equals the sum of
`net_revenue` over the records up to and including it (months `1..i+1`),
and the source's re-sum-the-whole-history behavior is extensionally equal
to maintaining a single running accumulator updated once per month. -/
theorem forecast_cumulative_refinement (a : Assumptions) (months : ℕ)
    (market_adjustment : ℚ) (scenario : String) :
    forecast_revenue a months market_adjustment scenario =
      forecast_revenue_acc a months market_adjustment scenario ∧
    cumNetOk (forecast_revenue a months market_adjustment scenario) := by
  constructor
  · unfold forecast_revenue forecast_revenue_acc
    exact (forecastAux_acc_eq _ _ _ _ _ _ _ (by simp)).symm
  · unfold forecast_revenue
    apply forecastAux_cumNetOk
    intro i hi
    simp at hi

/-- C5 witness: both conclusions at the spec's test configuration over a
2-month horizon; the prefix-sum property is instantiated at index 1. -/
theorem forecast_cumulative_refinement_witness :
    forecast_revenue ⟨100, 1/5, 1/4, 2, 20000, 1/50, 4/5, 15000⟩ 2 1 "base" =
      forecast_revenue_acc ⟨100, 1/5, 1/4, 2, 20000, 1/50, 4/5, 15000⟩ 2 1 "base" ∧
    ((forecast_revenue ⟨100, 1/5, 1/4, 2, 20000, 1/50, 4/5, 15000⟩ 2 1 "base").getD 1
        default).cumulative_net_revenue =
      (((forecast_revenue ⟨100, 1/5, 1/4, 2, 20000, 1/50, 4/5, 15000⟩ 2 1 "base").take 2).map
        MonthRecord.net_revenue).sum :=
  ⟨(forecast_cumulative_refinement _ _ _ _).1,
    (forecast_cumulative_refinement _ _ _ _).2 1
      (by rw [forecast_revenue_length]; omega)⟩

theorem find_first_min_month (l : List MonthRecord) (entry : ℚ)
    (hs : l.Pairwise (fun x y => x.month ≤ y.month)) (r0 : MonthRecord)
    (hf : l.find? (fun r => decide (entry ≤ r.cumulative_net_revenue)) = some r0) :
    ∀ r2 ∈ l, entry ≤ r2.cumulative_net_revenue → r0.month ≤ r2.month := by
  induction l with
  | nil => simp at hf
  | cons x xs ih =>
    rw [List.pairwise_cons] at hs
    by_cases hx : entry ≤ x.cumulative_net_revenue
    · rw [List.find?_cons_of_pos _ (by simpa using hx)] at hf
      injection hf with hf
      subst hf
      intro r2 hr2 _
      rcases List.mem_cons.1 hr2 with h1 | h1
      · rw [h1]
      · exact hs.1 r2 h1
    · rw [List.find?_cons_of_neg _ (by simpa using hx)] at hf
      intro r2 hr2 hr2c
      rcases List.mem_cons.1 hr2 with h1 | h1
      · exact absurd (h1 ▸ hr2c) hx
      · exact ih hs.2 hf r2 h1 hr2c

/-- C6: for every month-ordered forecast table and every entry cost,
`calculate_payback_period` returns `-1` exactly when
`cumulative_net_revenue` never reaches `entry_cost` within the horizon;
otherwise it returns, as a float, the month of a record meeting the
threshold whose month is smallest among all records meeting it. -/
theorem calculate_payback_period_spec (records : List MonthRecord) (entry_cost : ℚ)
    (hs : records.Pairwise (fun x y => x.month ≤ y.month)) :
    (calculate_payback_period records entry_cost = -1 ↔
      ∀ r ∈ records, r.cumulative_net_revenue < entry_cost) ∧
    (∀ r ∈ records, entry_cost ≤ r.cumulative_net_revenue →
      ∃ r0 ∈ records, entry_cost ≤ r0.cumulative_net_revenue ∧
        calculate_payback_period records entry_cost = (r0.month : ℚ) ∧
        ∀ r2 ∈ records, entry_cost ≤ r2.cumulative_net_revenue → r0.month ≤ r2.month) := by
  constructor
  · constructor
    · intro hneg r hr
      by_contra hc
      push_neg at hc
      rcases hf : records.find? (fun r => decide (entry_cost ≤ r.cumulative_net_revenue))
        with _ | r0
      · rw [List.find?_eq_none] at hf
        exact hf r hr (by simpa using hc)
      · have hmk : calculate_payback_period records entry_cost = (r0.month : ℚ) := by
          unfold calculate_payback_period
          rw [hf]
        rw [hmk] at hneg
        have hnn : (0 : ℚ) ≤ (r0.month : ℚ) := by positivity
        rw [hneg] at hnn
        norm_num at hnn
    · intro hall
      unfold calculate_payback_period
      rw [List.find?_eq_none.2 (fun r hr => by simpa using not_le.2 (hall r hr))]
  · intro r hr hrc
    rcases hf : records.find? (fun r => decide (entry_cost ≤ r.cumulative_net_revenue))
      with _ | r0
    · rw [List.find?_eq_none] at hf
      exact absurd (by simpa using hrc) (hf r hr)
    · refine ⟨r0, List.mem_of_find?_eq_some hf, by simpa using List.find?_some hf, ?_,
        find_first_min_month records entry_cost hs r0 hf⟩
      unfold calculate_payback_period
      rw [hf]

/-- C6 witness: a concrete two-month table where the threshold is met in
month 2, and a threshold that is never met. -/
theorem calculate_payback_period_spec_witness :
    ((calculate_payback_period
        [⟨1, 0, 0, 0, 0, 0, 0, 0, 0, 0, 0, 10⟩, ⟨2, 0, 0, 0, 0, 0, 0, 0, 0, 0, 0, 20⟩] 100 = -1 ↔
      ∀ r ∈ ([⟨1, 0, 0, 0, 0, 0, 0, 0, 0, 0, 0, 10⟩,
        ⟨2, 0, 0, 0, 0, 0, 0, 0, 0, 0, 0, 20⟩] : List MonthRecord),
        r.cumulative_net_revenue < 100) ∧
    (∀ r ∈ ([⟨1, 0, 0, 0, 0, 0, 0, 0, 0, 0, 0, 10⟩,
        ⟨2, 0, 0, 0, 0, 0, 0, 0, 0, 0, 0, 20⟩] : List MonthRecord),
      (100 : ℚ) ≤ r.cumulative_net_revenue →
      ∃ r0 ∈ ([⟨1, 0, 0, 0, 0, 0, 0, 0, 0, 0, 0, 10⟩,
          ⟨2, 0, 0, 0, 0, 0, 0, 0, 0, 0, 0, 20⟩] : List MonthRecord),
        (100 : ℚ) ≤ r0.cumulative_net_revenue ∧
        calculate_payback_period
          [⟨1, 0, 0, 0, 0, 0, 0, 0, 0, 0, 0, 10⟩, ⟨2, 0, 0, 0, 0, 0, 0, 0, 0, 0, 0, 20⟩] 100 =
            (r0.month : ℚ) ∧
        ∀ r2 ∈ ([⟨1, 0, 0, 0, 0, 0, 0, 0, 0, 0, 0, 10⟩,
            ⟨2, 0, 0, 0, 0, 0, 0, 0, 0, 0, 0, 20⟩] : List MonthRecord),
          (100 : ℚ) ≤ r2.cumulative_net_revenue → r0.month ≤ r2.month)) :=
  calculate_payback_period_spec
    [⟨1, 0, 0, 0, 0, 0, 0, 0, 0, 0, 0, 10⟩, ⟨2, 0, 0, 0, 0, 0, 0, 0, 0, 0, 0, 20⟩] 100
    (by simp)

theorem exists_max_total_score (l : List ScoredMarket) (h : l ≠ []) :
    ∃ r ∈ l, ∀ q ∈ l, q.total_score ≤ r.total_score := by
  induction l with
  | nil => exact absurd rfl h
  | cons x xs ih =>
    rcases eq_or_ne xs [] with hxs | hxs
    · subst hxs
      exact ⟨x, by simp⟩
    · obtain ⟨r, hr, hmax⟩ := ih hxs
      rcases le_total r.total_score x.total_score with hle | hle
      · refine ⟨x, List.mem_cons_self x xs, ?_⟩
        intro q hq
        rcases List.mem_cons.1 hq with h1 | h1
        · rw [h1]
        · exact le_trans (hmax q h1) hle
      · refine ⟨r, List.mem_cons_of_mem x hr, ?_⟩
        intro q hq
        rcases List.mem_cons.1 hq with h1 | h1
        · rw [h1]
          exact hle
        · exact hmax q h1

theorem score_markets_perm (w : Weights) (df : List Market) :
    (score_markets w df).Perm (rankedRows w df) :=
  List.mergeSort_perm (rankedRows w df) _

theorem rankedRows_rank_eq (w : Weights) (df : List Market) (r : ScoredMarket)
    (hr : r ∈ rankedRows w df) :
    r.rank = 1 + (rankedRows w df).countP (fun q => decide (r.total_score < q.total_score)) := by
  obtain ⟨p, _, rfl⟩ := List.mem_map.1 hr
  unfold rankedRows
  rw [List.countP_map]
  rfl

/-- C2: in the output of `score_markets` each market's rank equals 1 plus
the number of markets with strictly higher `total_score` (min-ranking, so
tied scores share a rank), the output rows are ordered by ascending rank,
and the market holding rank 1 has `total_score` greater than or equal to
every other market's. -/
theorem score_markets_rank_spec (w : Weights) (df : List Market) (hdf : df ≠ []) :
    (∀ r ∈ score_markets w df,
      r.rank = 1 + (score_markets w df).countP
        (fun q => decide (r.total_score < q.total_score))) ∧
    (score_markets w df).Pairwise (fun a b => a.rank ≤ b.rank) ∧
    ∃ r ∈ score_markets w df, r.rank = 1 ∧
      ∀ q ∈ score_markets w df, q.total_score ≤ r.total_score := by
  have hperm := score_markets_perm w df
  refine ⟨?_, ?_, ?_⟩
  · intro r hr
    rw [hperm.countP_eq]
    exact rankedRows_rank_eq w df r (hperm.mem_iff.1 hr)
  · have hs : List.Pairwise (fun a b : ScoredMarket => decide (a.rank ≤ b.rank) = true)
        ((rankedRows w df).mergeSort (fun a b => decide (a.rank ≤ b.rank))) :=
      List.sorted_mergeSort
        (fun a b c hab hbc => by
          simp only [decide_eq_true_eq] at hab hbc ⊢
          omega)
        (fun a b => by
          simp only [Bool.or_eq_true, decide_eq_true_eq]
          omega)
        (rankedRows w df)
    exact hs.imp (fun h => by simpa using h)
  · have hne : rankedRows w df ≠ [] := by
      unfold rankedRows scoredPairs
      simpa using hdf
    obtain ⟨r, hr, hmax⟩ := exists_max_total_score _ hne
    refine ⟨r, hperm.mem_iff.2 hr, ?_, ?_⟩
    · rw [rankedRows_rank_eq w df r hr]
      rw [List.countP_eq_zero.2 (fun q hq => by
        simp only [decide_eq_true_eq, not_lt]
        exact hmax q hq)]
    · intro q hq
      exact hmax q (hperm.mem_iff.1 hq)

/-- C2 witness: two markets with distinct scores under the weight vector
`{market_size: 1.0}`. -/
theorem score_markets_rank_spec_witness :
    (∀ r ∈ score_markets [(("market_size" : String), (1 : ℚ))]
        [⟨"AUS", [("market_size_score_standardized", 1)]⟩,
         ⟨"SGP", [("market_size_score_standardized", 1/2)]⟩],
      r.rank = 1 + (score_markets [(("market_size" : String), (1 : ℚ))]
        [⟨"AUS", [("market_size_score_standardized", 1)]⟩,
         ⟨"SGP", [("market_size_score_standardized", 1/2)]⟩]).countP
          (fun q => decide (r.total_score < q.total_score))) ∧
    (score_markets [(("market_size" : String), (1 : ℚ))]
        [⟨"AUS", [("market_size_score_standardized", 1)]⟩,
         ⟨"SGP", [("market_size_score_standardized", 1/2)]⟩]).Pairwise
      (fun a b => a.rank ≤ b.rank) ∧
    ∃ r ∈ score_markets [(("market_size" : String), (1 : ℚ))]
        [⟨"AUS", [("market_size_score_standardized", 1)]⟩,
         ⟨"SGP", [("market_size_score_standardized", 1/2)]⟩],
      r.rank = 1 ∧
      ∀ q ∈ score_markets [(("market_size" : String), (1 : ℚ))]
          [⟨"AUS", [("market_size_score_standardized", 1)]⟩,
           ⟨"SGP", [("market_size_score_standardized", 1/2)]⟩],
        q.total_score ≤ r.total_score :=
  score_markets_rank_spec _ _ (by simp)

theorem foldl_uniqueFirst_ne_nil (l : List ℕ) (acc : List ℕ) (h : acc ≠ []) :
    l.foldl (fun acc a => if a ∈ acc then acc else acc ++ [a]) acc ≠ [] := by
  induction l generalizing acc with
  | nil => simpa
  | cons x xs ih =>
    rw [List.foldl_cons]
    by_cases hx : x ∈ acc
    · rw [if_pos hx]
      exact ih acc h
    · rw [if_neg hx]
      exact ih _ (by simp)

theorem uniqueFirst_ne_nil (l : List ℕ) (h : l ≠ []) : uniqueFirst l ≠ [] := by
  rcases l with _ | ⟨x, xs⟩
  · exact absurd rfl h
  · unfold uniqueFirst
    rw [List.foldl_cons]
    simp only [List.not_mem_nil, if_false, List.nil_append]
    exact foldl_uniqueFirst_ne_nil xs [x] (by simp)

theorem simPayback_cases (panel : List SimRow) (sid : ℕ) (entry_cost : ℚ)
    (hm : ∀ r ∈ panel, 1 ≤ r.month) :
    simPayback panel sid entry_cost = -1 ∨ 1 ≤ simPayback panel sid entry_cost := by
  unfold simPayback
  rcases hf : ((panel.filter (fun r => r.simulation = sid)).mergeSort
      (fun a b => decide (a.month ≤ b.month))).find?
      (fun r => decide (entry_cost ≤ r.net_revenue)) with _ | r
  · left
    simp only [simPayback]
    rw [hf]
  · right
    have hr := List.mem_of_find?_eq_some hf
    have hr2 : r ∈ panel.filter (fun r => r.simulation = sid) :=
      (List.mergeSort_perm _ _).mem_iff.1 hr
    have hr3 : r ∈ panel := List.mem_of_mem_filter hr2
    have hr4 := hm r hr3
    simp only [simPayback]
    rw [hf]
    show (1 : ℤ) ≤ (r.month : ℤ)
    exact_mod_cast hr4

theorem countP_pos_add_neg (pbs : List ℤ) (h : ∀ z ∈ pbs, z = -1 ∨ 1 ≤ z) :
    pbs.countP (fun z => decide (0 < z)) + pbs.countP (fun z => decide (z = -1)) =
      pbs.length := by
  induction pbs with
  | nil => simp
  | cons x xs ih =>
    rw [List.countP_cons, List.countP_cons, List.length_cons]
    have hx := h x (List.mem_cons_self x xs)
    have hxs := ih (fun z hz => h z (List.mem_cons_of_mem x hz))
    rcases hx with h1 | h1
    · subst h1
      simp only [decide_eq_true_eq]
      norm_num
      omega
    · have : ¬ (x = -1) := by omega
      have : (0 : ℤ) < x := by omega
      simp only [decide_eq_true_eq]
      rw [if_pos (by omega : (0:ℤ) < x), if_neg (by omega : ¬ (x = -1))]
      omega

theorem paybackList_length (panel : List SimRow) (entry_cost : ℚ) :
    (paybackList panel entry_cost).length =
      (uniqueFirst (panel.map SimRow.simulation)).length := by
  unfold paybackList
  rw [List.length_map]

/-- C9: `calculate_payback_distribution` reports `never_pays_back_pct`
exactly equal to `100 * (count of -1 payback entries) / n_sims`; the summary
statistics (mean, median, std, p10, p90) are computed only over the
simulations that did pay back; and when no simulation pays back it returns
`mean = median = p10 = p90 = -1`, `std = 0`, `never_pays_back_pct = 100`. -/
theorem calculate_payback_distribution_spec (panel : List SimRow) (entry_cost : ℚ)
    (hne : panel ≠ []) (hm : ∀ r ∈ panel, 1 ≤ r.month) :
    (calculate_payback_distribution panel entry_cost).2.never_pays_back_pct =
      100 * ((paybackList panel entry_cost).countP (fun z => decide (z = -1)) : ℚ) /
        ((uniqueFirst (panel.map SimRow.simulation)).length : ℚ) ∧
    ((paybackList panel entry_cost).filter (fun p => decide (0 < p)) ≠ [] →
      (calculate_payback_distribution panel entry_cost).2 =
        { mean := npMean (((paybackList panel entry_cost).filter
            (fun p => decide (0 < p))).map (fun z => (z : ℚ)))
          median := npPercentile (((paybackList panel entry_cost).filter
            (fun p => decide (0 < p))).map (fun z => (z : ℚ))) 50
          std := npStd (((paybackList panel entry_cost).filter
            (fun p => decide (0 < p))).map (fun z => (z : ℚ)))
          p10 := npPercentile (((paybackList panel entry_cost).filter
            (fun p => decide (0 < p))).map (fun z => (z : ℚ))) 10
          p90 := npPercentile (((paybackList panel entry_cost).filter
            (fun p => decide (0 < p))).map (fun z => (z : ℚ))) 90
          never_pays_back_pct :=
            (((paybackList panel entry_cost).length -
                ((paybackList panel entry_cost).filter
                  (fun p => decide (0 < p))).length : ℕ) : ℚ) /
              ((paybackList panel entry_cost).length : ℚ) * 100 }) ∧
    ((paybackList panel entry_cost).filter (fun p => decide (0 < p)) = [] →
      (calculate_payback_distribution panel entry_cost).2 =
        { mean := -1, median := -1, std := 0, p10 := -1, p90 := -1,
          never_pays_back_pct := 100 }) := by
  have hlen := paybackList_length panel entry_cost
  have hnz : (uniqueFirst (panel.map SimRow.simulation)).length ≠ 0 := by
    intro hc
    exact uniqueFirst_ne_nil (panel.map SimRow.simulation) (by simpa using hne)
      (List.length_eq_zero.1 hc)
  have helems : ∀ z ∈ paybackList panel entry_cost, z = -1 ∨ 1 ≤ z := by
    intro z hz
    obtain ⟨sid, _, rfl⟩ := List.mem_map.1 hz
    exact simPayback_cases panel sid entry_cost hm
  have hsplit := countP_pos_add_neg _ helems
  have hvl : ((paybackList panel entry_cost).filter (fun p => decide (0 < p))).length =
      (paybackList panel entry_cost).countP (fun z => decide (0 < z)) :=
    (List.countP_eq_length_filter _ _).symm
  by_cases hv : (paybackList panel entry_cost).filter (fun p => decide (0 < p)) = []
  · have hif : (calculate_payback_distribution panel entry_cost).2 =
        { mean := -1, median := -1, std := 0, p10 := -1, p90 := -1,
          never_pays_back_pct := 100 } := by
      simp only [calculate_payback_distribution]
      rw [if_neg (by simp [hv])]
    have hpos0 : (paybackList panel entry_cost).countP (fun z => decide (0 < z)) = 0 := by
      rw [List.countP_eq_length_filter, hv]
      rfl
    have hneg : (paybackList panel entry_cost).countP (fun z => decide (z = -1)) =
        (paybackList panel entry_cost).length := by omega
    refine ⟨?_, fun hc => absurd hv hc, fun _ => hif⟩
    rw [hif, hneg, hlen]
    show (100 : ℚ) = _
    rw [mul_div_assoc, div_self (Nat.cast_ne_zero.2 hnz), mul_one]
  · have hvne : ((paybackList panel entry_cost).filter (fun p => decide (0 < p))).length ≠ 0 :=
      fun hc => hv (List.length_eq_zero.1 hc)
    have hif : (calculate_payback_distribution panel entry_cost).2 =
        { mean := npMean (((paybackList panel entry_cost).filter
            (fun p => decide (0 < p))).map (fun z => (z : ℚ)))
          median := npPercentile (((paybackList panel entry_cost).filter
            (fun p => decide (0 < p))).map (fun z => (z : ℚ))) 50
          std := npStd (((paybackList panel entry_cost).filter
            (fun p => decide (0 < p))).map (fun z => (z : ℚ)))
          p10 := npPercentile (((paybackList panel entry_cost).filter
            (fun p => decide (0 < p))).map (fun z => (z : ℚ))) 10
          p90 := npPercentile (((paybackList panel entry_cost).filter
            (fun p => decide (0 < p))).map (fun z => (z : ℚ))) 90
          never_pays_back_pct :=
            (((paybackList panel entry_cost).length -
                ((paybackList panel entry_cost).filter
                  (fun p => decide (0 < p))).length : ℕ) : ℚ) /
              ((paybackList panel entry_cost).length : ℚ) * 100 } := by
      simp only [calculate_payback_distribution]
      rw [if_pos hvne]
    refine ⟨?_, fun _ => hif, fun hc => absurd hc hv⟩
    rw [hif]
    show (((paybackList panel entry_cost).length -
        ((paybackList panel entry_cost).filter
          (fun p => decide (0 < p))).length : ℕ) : ℚ) /
        ((paybackList panel entry_cost).length : ℚ) * 100 = _
    have hsub : (paybackList panel entry_cost).length -
        ((paybackList panel entry_cost).filter (fun p => decide (0 < p))).length =
        (paybackList panel entry_cost).countP (fun z => decide (z = -1)) := by
      omega
    rw [hsub, hlen]
    ring

/-- C9 witness: the statement at a one-row panel (simulation 0, month 1). -/
theorem calculate_payback_distribution_spec_witness :
    ([(⟨0, 1, 0, 0, 0, 0, 0⟩ : SimRow)] ≠ []) ∧
    (∀ r ∈ [(⟨0, 1, 0, 0, 0, 0, 0⟩ : SimRow)], 1 ≤ r.month) ∧
    (calculate_payback_distribution [(⟨0, 1, 0, 0, 0, 0, 0⟩ : SimRow)] 0).2.never_pays_back_pct =
      100 * ((paybackList [(⟨0, 1, 0, 0, 0, 0, 0⟩ : SimRow)] 0).countP
          (fun z => decide (z = -1)) : ℚ) /
        ((uniqueFirst ([(⟨0, 1, 0, 0, 0, 0, 0⟩ : SimRow)].map SimRow.simulation)).length : ℚ) :=
  ⟨List.cons_ne_nil _ _, by simp,
    (calculate_payback_distribution_spec [(⟨0, 1, 0, 0, 0, 0, 0⟩ : SimRow)] 0
      (List.cons_ne_nil _ _) (by simp)).1⟩
